import Mathlib

/-!
Verification of the TamatarBhai frontend request-submission logic and of the
spec-described backend orchestration core (nutrition resolution, single-flight
de-duplication).  Frontend definitions are shallow embeddings of the
TypeScript sources under `frontend/src`; strings are modelled as `List Char`,
JavaScript numbers used as integers are modelled as `Int`, similarity scores
as `ℚ`.
-/

namespace TamatarBhai

/-! ### JavaScript string primitives

`String.prototype.trim` and `String.prototype.toLowerCase` modelled on lists
of characters. -/

def isWs (c : Char) : Bool := c.isWhitespace

/-- JavaScript `s.trim()`: surrounding whitespace removed from both ends. -/
def trimChars (s : List Char) : List Char :=
  ((s.dropWhile isWs).reverse.dropWhile isWs).reverse

/-- JavaScript `s.toLowerCase()` (ASCII case folding). -/
def lowerChars (s : List Char) : List Char := s.map Char.toLower

/-! ### Form submission outcomes

The `handleSubmit` of each page either reports a validation error via `setError`
and returns without contacting the backend, or issues exactly one request
through the api service.  The outcome is modelled as a sum. -/

inductive SubmitOutcome (ρ : Type) where
  | failed (msg : List Char)
  | request (r : ρ)
deriving DecidableEq

/-- Payload of `generatePreview(dish, meal)` (services/api.ts). -/
structure PreviewRequest where
  dish : List Char
  meal : List Char
deriving DecidableEq

/-- `handleSubmit` of `pages/DailyPreview.tsx` (lines 17–37): rejects an
empty trimmed dish name, otherwise calls `generatePreview(dish.trim(), meal)`. -/
def previewHandleSubmit (dish meal : List Char) : SubmitOutcome PreviewRequest :=
  if trimChars dish = [] then
    .failed "Please enter a dish name".toList
  else
    .request ⟨trimChars dish, meal⟩

/-- Payload of `compareDishes(dishA, dishB)` (services/api.ts). -/
structure CompareRequest where
  dishA : List Char
  dishB : List Char
deriving DecidableEq

/-- `handleSubmit` of `pages/SwitchupDiff.tsx` (lines 16–41): rejects when
either trimmed name is empty, then rejects when the two names agree after
trim + toLowerCase, otherwise calls `compareDishes(dishA.trim(), dishB.trim())`. -/
def compareHandleSubmit (dishA dishB : List Char) : SubmitOutcome CompareRequest :=
  if trimChars dishA = [] ∨ trimChars dishB = [] then
    .failed "Please enter both dish names".toList
  else if lowerChars (trimChars dishA) = lowerChars (trimChars dishB) then
    .failed "Please enter two different dishes to compare".toList
  else
    .request ⟨trimChars dishA, trimChars dishB⟩

/-! ### Comparison result rendering (`pages/SwitchupDiff.tsx`) -/

/-- The fields of `CompareResponse.dishA` / `dishB` used by the page. -/
structure DishInfo where
  name : List Char
  calories : Int
deriving DecidableEq

structure CompareResult where
  dishA : DishInfo
  dishB : DishInfo
deriving DecidableEq

/-- `getLighterDish` of `pages/SwitchupDiff.tsx` (lines 56–59):
`result.dishA.calories < result.dishB.calories ? 'A' : 'B'`, `null` without a
result.  The dish whose letter is returned receives the green border and the
"Lighter" badge (lines 184–196, 234–246). -/
def getLighterDish (result : Option CompareResult) : Option (List Char) :=
  match result with
  | none => none
  | some r => some (if r.dishA.calories < r.dishB.calories then "A".toList else "B".toList)

/-- Modelled from the spec: the backend field `meta.calorie_difference`
(`calorie_difference = calories(A) − calories(B)`, §4.4 Compare mode); the
backend computing it is not under src.  The page displays
`Math.abs(result.meta.calorie_difference)` (line 289). -/
def calorieDifference (r : CompareResult) : Int :=
  r.dishA.calories - r.dishB.calories

/-! ### `components/ImageWithFallback.tsx` -/

/-- The state hooks of the component: `imgSrc`, `isLoading`, `hasError`. -/
structure ImgState where
  imgSrc : List Char
  isLoading : Bool
  hasError : Bool
deriving DecidableEq

/-- `handleError` (lines 25–37): `setIsLoading(false)`; then if the failing
source differs from `fallbackSrc`, substitute the fallback and clear the
error flag, otherwise keep `imgSrc` and set `hasError`. -/
def handleError (fallbackSrc : List Char) (s : ImgState) : ImgState :=
  if s.imgSrc ≠ fallbackSrc then
    { imgSrc := fallbackSrc, isLoading := false, hasError := false }
  else
    { s with isLoading := false, hasError := true }

/-! ### `services/api.ts` image URL helper -/

/-- `API_BASE_URL` fallback literal in services/api.ts line 26. -/
def defaultApiBaseUrl : List Char := "http://localhost:8000".toList

/-- The expression `VITE_API_BASE_URL || "http://localhost:8000"`: an unset
variable (`none`) and the empty string are both falsy in JavaScript. -/
def apiBaseUrl (env : Option (List Char)) : List Char :=
  match env with
  | none => defaultApiBaseUrl
  | some s => if s = [] then defaultApiBaseUrl else s

/-- JavaScript `s.startsWith(p)`. -/
def startsWith : List Char → List Char → Bool
  | [], _ => true
  | _ :: _, [] => false
  | c :: p, d :: s => c = d && startsWith p s

/-- `getImageUrl` of services/api.ts (lines 200–205): a path starting with
"http" is returned unchanged, anything else is prefixed with `API_BASE_URL`. -/
def getImageUrl (env : Option (List Char)) (path : List Char) : List Char :=
  if startsWith "http".toList path then path
  else apiBaseUrl env ++ path

/-! ### Calendar dates (`pages/WeeklySnapshot.tsx` and the weekly variant
embedded in `pages/DailyPreview.tsx`)

A form value `"yyyy-MM-dd"` parses via `new Date(...)` to UTC midnight, so
its `getTime()` is a whole number of days, in milliseconds, from the Unix
epoch.  `civilDays` counts days from 0001-01-01 in the proleptic Gregorian
calendar. -/

structure CalDate where
  year : Nat
  month : Nat
  day : Nat
deriving DecidableEq

def isLeapYear (y : Nat) : Bool :=
  y % 4 = 0 && (y % 100 ≠ 0 || y % 400 = 0)

/-- Days in the months strictly before month `m` of a year. -/
def daysBeforeMonth (leap : Bool) (m : Nat) : Nat :=
  match m with
  | 2 => 31
  | 3 => if leap then 60 else 59
  | 4 => if leap then 91 else 90
  | 5 => if leap then 121 else 120
  | 6 => if leap then 152 else 151
  | 7 => if leap then 182 else 181
  | 8 => if leap then 213 else 212
  | 9 => if leap then 244 else 243
  | 10 => if leap then 274 else 273
  | 11 => if leap then 305 else 304
  | 12 => if leap then 335 else 334
  | _ => 0

def civilDays (d : CalDate) : Nat :=
  let y := d.year - 1
  365 * y + y / 4 - y / 100 + y / 400 +
    daysBeforeMonth (isLeapYear d.year) d.month + (d.day - 1)

/-- `new Date("yyyy-MM-dd").getTime()` in milliseconds since the epoch. -/
def getTime (d : CalDate) : Int :=
  86400000 * ((civilDays d : Int) - (civilDays ⟨1970, 1, 1⟩ : Int))

/-- `validateDates` of the weekly page variant embedded in
`pages/DailyPreview.tsx` (lines 263–281): rejects `start > end`, then an end
date after the current instant `now`, then a start date after `now`. -/
def validateDates (startDate endDate : CalDate) (now : Int) : Option (List Char) :=
  if getTime startDate > getTime endDate then
    some "Start date must be before or equal to end date".toList
  else if getTime endDate > now then
    some "End date cannot be in the future".toList
  else if getTime startDate > now then
    some "Start date cannot be in the future".toList
  else none

/-- Payload of `getWeeklySnapshot(startDate, endDate)` (services/api.ts). -/
structure WeeklyRequest where
  startDate : CalDate
  endDate : CalDate
deriving DecidableEq

/-- `handleSubmit` of `pages/WeeklySnapshot.tsx` (lines 25–54): rejects a
missing date (`!startDate || !endDate`), then
`new Date(startDate) > new Date(endDate)`, otherwise calls
`getWeeklySnapshot(startDate, endDate)`. -/
def weeklyHandleSubmit (startDate endDate : Option CalDate) :
    SubmitOutcome WeeklyRequest :=
  match startDate, endDate with
  | none, _ => .failed "Please select both start and end dates".toList
  | _, none => .failed "Please select both start and end dates".toList
  | some s, some e =>
      if getTime s > getTime e then
        .failed "Start date must be before end date".toList
      else
        .request ⟨s, e⟩

/-- `handleSubmit` of the weekly page variant in `pages/DailyPreview.tsx`
(lines 283–304): reports the first `validateDates` failure, otherwise calls
`getWeeklySnapshot(startDate, endDate)`. -/
def weeklyHandleSubmitValidated (startDate endDate : CalDate) (now : Int) :
    SubmitOutcome WeeklyRequest :=
  match validateDates startDate endDate now with
  | some msg => .failed msg
  | none => .request ⟨startDate, endDate⟩

/-- The "Period: … days" figure of `pages/WeeklySnapshot.tsx` (lines
317–327): `Math.ceil((end.getTime() - start.getTime()) / (1000*60*60*24) + 1)`. -/
def periodDaysDisplayed (startDate endDate : CalDate) : Int :=
  ⌈((getTime endDate - getTime startDate : Int) : ℚ) / (1000 * 60 * 60 * 24) + 1⌉

/-! ### NutritionIndex

The FastAPI backend implementing `NutritionLookup.fuzzy_match_dish` is not
part of the sources (only its design document and callers are), so the
resolution pipeline is modelled from the spec, §4.1. -/

/-- Modelled from the spec: the input normalization of `resolve` — "trim,
lowercase, collapse whitespace". -/
def normalize (s : List Char) : List Char :=
  List.intercalate [' '] (((s.map Char.toLower).splitOnP isWs).filter (· ≠ []))

/-- Modelled from the spec: the Levenshtein edit distance underlying the
"edit-distance-ratio" similarity metric. -/
def levenshtein : List Char → List Char → Nat
  | [], t => t.length
  | a :: s, [] => (a :: s).length
  | a :: s, b :: t =>
      if a = b then levenshtein s t
      else 1 + min (levenshtein s (b :: t)) (min (levenshtein (a :: s) t) (levenshtein s t))
termination_by s t => s.length + t.length
decreasing_by all_goals simp_arith

/-- Modelled from the spec: edit-distance-ratio similarity of two dish
names, a score in [0,1]; identical normalized names score 1. -/
def similarity (a b : List Char) : ℚ :=
  let x := normalize a
  let y := normalize b
  if max x.length y.length = 0 then 1
  else 1 - (levenshtein x y : ℚ) / (max x.length y.length : ℚ)

/-- DishReference of the spec data model (the fields resolution needs). -/
structure DishReference where
  name : List Char
  calorie_count : Nat
deriving DecidableEq

/-- MatchResult of the spec data model. -/
structure MatchResult where
  matched_reference : Option DishReference
  confidence : ℚ
deriving DecidableEq

/-- Modelled from the spec: tie-break preference among references with equal
scores — exact case-insensitive equality first, then shortest Levenshtein
distance; keeping the incumbent on remaining ties realizes first-inserted. -/
def tieBreakBetter (input : List Char) (cand incumbent : DishReference) : Bool :=
  let exactNew := decide (lowerChars cand.name = lowerChars input)
  let exactOld := decide (lowerChars incumbent.name = lowerChars input)
  (exactNew && !exactOld) ||
    ((exactNew == exactOld) &&
      decide (levenshtein (normalize input) (normalize cand.name) <
        levenshtein (normalize input) (normalize incumbent.name)))

/-- Modelled from the spec: a candidate replaces the incumbent best match
when it scores strictly higher, or equally high and preferred by the
tie-break. -/
def pickStep (input : List Char) (best : DishReference × ℚ)
    (r : DishReference) : DishReference × ℚ :=
  if similarity input r.name > best.2 ∨
      (similarity input r.name = best.2 ∧ tieBreakBetter input r best.1 = true) then
    (r, similarity input r.name)
  else best

/-- Modelled from the spec: the highest-scoring reference, scanned in
insertion order with the tie-break above. -/
def pickBest (input : List Char) (first : DishReference)
    (rest : List DishReference) : DishReference × ℚ :=
  rest.foldl (pickStep input) (first, similarity input first.name)

/-- Modelled from the spec (§4.1): `resolve(name) -> MatchResult` returns the
highest-scoring reference when its score is at least 0.70, and otherwise
`matched_reference = none` with `confidence = 0`. -/
def resolve (refs : List DishReference) (name : List Char) : MatchResult :=
  match refs with
  | [] => ⟨none, 0⟩
  | r :: rs =>
      let best := pickBest name r rs
      if best.2 ≥ 7/10 then ⟨some best.1, best.2⟩ else ⟨none, 0⟩

/-! ### SingleFlightCoordinator

The coordinator is not part of the sources; it is modelled from the spec
(§4.3, §5) as a per-key transition system over the states of `n` concurrent
callers of `execute(key, generateFn)`.  The j-th invocation of `generateFn`
yields the opaque outcome `g j` (a result or an error, identical for every
subscriber of that invocation). -/

inductive CallerState where
  | pending
  | active
  | done (result : Nat)
deriving DecidableEq

structure SFState (n : Nat) where
  caller : Fin n → CallerState
  inflight : Bool
  genCount : Nat

def initState (n : Nat) : SFState n := ⟨fun _ => .pending, false, 0⟩

inductive SFEvent (n : Nat) where
  | enter (i : Fin n)
  | complete

/-- Modelled from the spec: one observable step.  `enter i` is caller `i`
reaching the coordinator: with no generation in flight it becomes the leader,
sets the in-flight marker and invokes `generateFn` (incrementing the
invocation counter); otherwise it awaits the in-flight result (no second
invocation).  `complete` is the in-flight `generateFn` returning: the leader
publishes the outcome of the current invocation to itself and every waiter
and clears the marker.  Steps not enabled in a state do not occur. -/
def sfStep (g : Nat → Nat) (s : SFState n) : SFEvent n → Option (SFState n)
  | .enter i =>
      match s.caller i with
      | .pending =>
          if s.inflight then
            some { s with caller := Function.update s.caller i .active }
          else
            some { caller := Function.update s.caller i .active,
                   inflight := true, genCount := s.genCount + 1 }
      | _ => none
  | .complete =>
      if s.inflight then
        some { caller := fun j => match s.caller j with
                 | .active => .done (g (s.genCount - 1))
                 | c => c,
               inflight := false, genCount := s.genCount }
      else none

def sfRun (g : Nat → Nat) (s : SFState n) : List (SFEvent n) → Option (SFState n)
  | [] => some s
  | e :: es =>
      match sfStep g s e with
      | none => none
      | some t => sfRun g t es

/-! ### Supporting lemmas -/

theorem levenshtein_le_max (s t : List Char) :
    levenshtein s t ≤ max s.length t.length := by
  induction s, t using levenshtein.induct with
  | case1 t => simp [levenshtein]
  | case2 a s => simp [levenshtein]
  | case3 s b t ih =>
      have he : levenshtein (b :: s) (b :: t) = levenshtein s t := by
        simp [levenshtein]
      rw [he]
      simp only [List.length_cons]
      omega
  | case4 a s b t hne ih1 ih2 ih3 =>
      simp only [levenshtein, if_neg hne, List.length_cons]
      omega

theorem similarity_nonneg (a b : List Char) : 0 ≤ similarity a b := by
  unfold similarity
  by_cases h : max (normalize a).length (normalize b).length = 0
  · simp [h]
  · rw [if_neg h]
    have hq : (0 : ℚ) < (max (normalize a).length (normalize b).length : ℚ) := by
      exact_mod_cast Nat.pos_of_ne_zero h
    have hle : ((levenshtein (normalize a) (normalize b) : ℚ)) ≤
        (max (normalize a).length (normalize b).length : ℚ) := by
      exact_mod_cast levenshtein_le_max (normalize a) (normalize b)
    have : (levenshtein (normalize a) (normalize b) : ℚ) /
        (max (normalize a).length (normalize b).length : ℚ) ≤ 1 :=
      (div_le_one hq).mpr hle
    linarith

theorem similarity_le_one (a b : List Char) : similarity a b ≤ 1 := by
  unfold similarity
  by_cases h : max (normalize a).length (normalize b).length = 0
  · simp [h]
  · rw [if_neg h]
    have hq : (0 : ℚ) < (max (normalize a).length (normalize b).length : ℚ) := by
      exact_mod_cast Nat.pos_of_ne_zero h
    have hnn : (0 : ℚ) ≤ (levenshtein (normalize a) (normalize b) : ℚ) := by positivity
    have : (0 : ℚ) ≤ (levenshtein (normalize a) (normalize b) : ℚ) /
        (max (normalize a).length (normalize b).length : ℚ) :=
      div_nonneg hnn hq.le
    linarith

theorem pickStep_snd (input : List Char) (acc : DishReference × ℚ)
    (r : DishReference) (hacc : acc.2 = similarity input acc.1.name) :
    (pickStep input acc r).2 = similarity input (pickStep input acc r).1.name := by
  unfold pickStep
  split
  · rfl
  · exact hacc

theorem pickStep_mono (input : List Char) (acc : DishReference × ℚ)
    (r : DishReference) : acc.2 ≤ (pickStep input acc r).2 := by
  unfold pickStep
  split
  · next h =>
      rcases h with h | h
      · exact h.le
      · exact h.1.ge
  · exact le_refl _

theorem pickStep_le (input : List Char) (acc : DishReference × ℚ)
    (r : DishReference) : similarity input r.name ≤ (pickStep input acc r).2 := by
  unfold pickStep
  split
  · exact le_refl _
  · next h =>
      push_neg at h
      exact h.1

theorem pickStep_fst (input : List Char) (acc : DishReference × ℚ)
    (r : DishReference) :
    (pickStep input acc r).1 = r ∨ (pickStep input acc r).1 = acc.1 := by
  unfold pickStep
  split
  · exact Or.inl rfl
  · exact Or.inr rfl

theorem foldl_pickStep_spec (input : List Char) (l : List DishReference) :
    ∀ acc : DishReference × ℚ, acc.2 = similarity input acc.1.name →
      ((l.foldl (pickStep input) acc).1 = acc.1 ∨
        (l.foldl (pickStep input) acc).1 ∈ l) ∧
      (l.foldl (pickStep input) acc).2 =
        similarity input (l.foldl (pickStep input) acc).1.name ∧
      acc.2 ≤ (l.foldl (pickStep input) acc).2 ∧
      ∀ x ∈ l, similarity input x.name ≤ (l.foldl (pickStep input) acc).2 := by
  induction l with
  | nil =>
      intro acc hacc
      exact ⟨Or.inl rfl, hacc, le_refl _, by simp⟩
  | cons y ys ih =>
      intro acc hacc
      obtain ⟨h1, h2, h3, h4⟩ := ih (pickStep input acc y) (pickStep_snd input acc y hacc)
      simp only [List.foldl_cons]
      refine ⟨?_, h2, (pickStep_mono input acc y).trans h3, ?_⟩
      · rcases h1 with h1 | h1
        · rcases pickStep_fst input acc y with hf | hf
          · refine Or.inr ?_
            rw [h1, hf]
            exact List.mem_cons_self _ _
          · refine Or.inl ?_
            rw [h1, hf]
        · exact Or.inr (List.mem_cons_of_mem y h1)
      · intro x hx
        rcases List.mem_cons.mp hx with hx | hx
        · subst hx
          exact (pickStep_le input acc x).trans h3
        · exact h4 x hx

theorem pickBest_spec (input : List Char) (first : DishReference)
    (rest : List DishReference) :
    (pickBest input first rest).1 ∈ first :: rest ∧
    (pickBest input first rest).2 =
      similarity input (pickBest input first rest).1.name ∧
    ∀ x ∈ first :: rest, similarity input x.name ≤ (pickBest input first rest).2 := by
  obtain ⟨h1, h2, h3, h4⟩ := foldl_pickStep_spec input rest (first, similarity input first.name) rfl
  unfold pickBest
  refine ⟨?_, h2, ?_⟩
  · rcases h1 with h1 | h1
    · exact h1 ▸ List.mem_cons_self _ _
    · exact List.mem_cons_of_mem _ h1
  · intro x hx
    rcases List.mem_cons.mp hx with hx | hx
    · subst hx; exact h3
    · exact h4 x hx

theorem sfRun_append {n : Nat} (g : Nat → Nat) (as bs : List (SFEvent n)) :
    ∀ s : SFState n, sfRun g s (as ++ bs) =
      (match sfRun g s as with
       | none => none
       | some m => sfRun g m bs) := by
  induction as with
  | nil => intro s; rfl
  | cons e es ih =>
      intro s
      simp only [List.cons_append, sfRun]
      cases sfStep g s e with
      | none => rfl
      | some t => exact ih t

theorem sfRun_enters {n : Nat} (g : Nat → Nat) (t : List (Fin n)) :
    ∀ s : SFState n, s.inflight = true → t.Nodup →
      (∀ j ∈ t, s.caller j = CallerState.pending) →
      ∃ s2, sfRun g s (t.map SFEvent.enter) = some s2 ∧
        s2.inflight = true ∧ s2.genCount = s.genCount ∧
        (∀ j ∈ t, s2.caller j = CallerState.active) ∧
        (∀ j, j ∉ t → s2.caller j = s.caller j) := by
  induction t with
  | nil =>
      intro s hin _ _
      exact ⟨s, rfl, hin, rfl, by simp, fun j _ => rfl⟩
  | cons i t ih =>
      intro s hin hnd hp
      have hpi : s.caller i = CallerState.pending := hp i (List.mem_cons_self _ _)
      have hstep : sfStep g s (SFEvent.enter i) =
          some { s with caller := Function.update s.caller i CallerState.active } := by
        simp only [sfStep]
        rw [hpi]
        simp [hin]
      have hint : t.Nodup := (List.nodup_cons.mp hnd).2
      have hit : i ∉ t := (List.nodup_cons.mp hnd).1
      obtain ⟨s2, hrun, h2in, h2gc, h2act, h2keep⟩ :=
        ih { s with caller := Function.update s.caller i CallerState.active }
          hin hint
          (by
            intro j hj
            have hji : j ≠ i := fun he => hit (he ▸ hj)
            simp only [Function.update_apply, if_neg hji]
            exact hp j (List.mem_cons_of_mem _ hj))
      refine ⟨s2, ?_, h2in, h2gc, ?_, ?_⟩
      · simp only [List.map_cons, sfRun, hstep]
        exact hrun
      · intro j hj
        rcases List.mem_cons.mp hj with hj | hj
        · subst hj
          rw [h2keep j hit]
          simp [Function.update_apply]
        · exact h2act j hj
      · intro j hj
        have hjt : j ∉ t := fun hh => hj (List.mem_cons_of_mem _ hh)
        have hji : j ≠ i := fun he => hj (he ▸ List.mem_cons_self _ _)
        rw [h2keep j hjt]
        simp [Function.update_apply, hji]

theorem apiBaseUrl_ne_nil (env : Option (List Char)) : apiBaseUrl env ≠ [] := by
  match env with
  | none => exact (by decide : defaultApiBaseUrl ≠ [])
  | some s =>
      by_cases h : s = []
      · simpa [apiBaseUrl, h] using (by decide : defaultApiBaseUrl ≠ [])
      · simp only [apiBaseUrl, if_neg h]
        exact h

theorem startsWith_append (p a b : List Char) (h : startsWith p a = true) :
    startsWith p (a ++ b) = true := by
  induction p generalizing a with
  | nil => rfl
  | cons c cs ih =>
      match a with
      | [] => exact absurd h (by simp [startsWith])
      | d :: ds =>
          simp only [startsWith, Bool.and_eq_true] at h
          simp only [List.cons_append, startsWith, h.1, Bool.and_eq_true,
            decide_eq_true_eq, true_and]
          exact ih ds h.2

theorem handleError_imgSrc (fb : List Char) (t : ImgState) :
    (handleError fb t).imgSrc = fb := by
  unfold handleError
  split
  · rfl
  · next h =>
      simp at h
      exact h

theorem handleError_hasError_of_eq (fb : List Char) (t : ImgState)
    (h : t.imgSrc = fb) : (handleError fb t).hasError = true := by
  unfold handleError
  split
  · next hne => exact absurd h (by simpa using hne)
  · rfl

/-! ### Claim theorems -/

/-- Claim C1, counterexample: the claim says that when the two calorie counts
are equal no lighter dish is designated, but `getLighterDish` returns "B"
whenever `dishA.calories < dishB.calories` is false — including ties.  At a
tie of 300 vs 300 the page designates dish B as "Lighter". -/
theorem c1_counterexample :
    ¬ (∀ r : CompareResult, r.dishA.calories = r.dishB.calories →
        getLighterDish (some r) = none) := by
  intro h
  have hx := h ⟨⟨"rajma".toList, 300⟩, ⟨"dal tadka".toList, 300⟩⟩ rfl
  simp [getLighterDish] at hx

/-- Claim C1 (amended): `calorie_difference = calories(A) − calories(B)`, and
the lighter designation is determined by the comparison
`calories(A) < calories(B)`: dish A is designated "Lighter" exactly when it
has strictly fewer calories, and dish B is designated otherwise — so on a tie
`calorie_difference = 0` but dish B still receives the "Lighter" badge. -/
theorem c1_lighter_designation (r : CompareResult) :
    calorieDifference r = r.dishA.calories - r.dishB.calories ∧
    (getLighterDish (some r) = some "A".toList ↔
      r.dishA.calories < r.dishB.calories) ∧
    (getLighterDish (some r) = some "B".toList ↔
      r.dishB.calories ≤ r.dishA.calories) ∧
    (r.dishA.calories = r.dishB.calories →
      calorieDifference r = 0 ∧ getLighterDish (some r) = some "B".toList) := by
  refine ⟨rfl, ?_, ?_, ?_⟩
  · by_cases h : r.dishA.calories < r.dishB.calories
    · simp [getLighterDish, h]
    · simp only [getLighterDish, if_neg h, Option.some.injEq]
      exact iff_of_false (by decide) h
  · by_cases h : r.dishA.calories < r.dishB.calories
    · simp only [getLighterDish, if_pos h, Option.some.injEq]
      exact iff_of_false (by decide) (not_le.mpr h)
    · simp [getLighterDish, h, not_lt.mp h]
  · intro h
    constructor
    · simp [calorieDifference, h]
    · simp [getLighterDish, h]

/-- Claim C1 witness: instantiating the amended claim at the tie 300 vs 300. -/
theorem c1_witness :
    calorieDifference ⟨⟨"rajma".toList, 300⟩, ⟨"dal".toList, 300⟩⟩ = 0 ∧
    getLighterDish (some ⟨⟨"rajma".toList, 300⟩, ⟨"dal".toList, 300⟩⟩) =
      some "B".toList :=
  (c1_lighter_designation ⟨⟨"rajma".toList, 300⟩, ⟨"dal".toList, 300⟩⟩).2.2.2 rfl

/-- Claim C3, counterexample: the claim says no condition other than an
empty/whitespace-only dish name is reported as a failure before a request is
sent, but the comparison form also rejects two names that agree after trim +
toLowerCase: "Rajma" vs " rajma" are both non-empty after trimming yet no
request is issued. -/
theorem c3_counterexample :
    ¬ (∀ dishA dishB : List Char, trimChars dishA ≠ [] → trimChars dishB ≠ [] →
        ∃ r, compareHandleSubmit dishA dishB = SubmitOutcome.request r) := by
  intro h
  rcases h "Rajma".toList " rajma".toList (by decide) (by decide) with ⟨r, hr⟩
  have hfail : compareHandleSubmit "Rajma".toList " rajma".toList =
      SubmitOutcome.failed "Please enter two different dishes to compare".toList := by
    decide
  rw [hfail] at hr
  exact SubmitOutcome.noConfusion hr

/-- Claim C3 (amended): an empty or whitespace-only dish name is always
rejected with a validation error and no request is issued, in both preview
and comparison submission; the only other condition reported before a request
is sent is the comparison-specific self-comparison check (two names equal
after trim + toLowerCase).  In every remaining case the request is issued. -/
theorem c3_validation (dish meal dishA dishB : List Char) :
    (trimChars dish = [] →
      previewHandleSubmit dish meal =
        SubmitOutcome.failed "Please enter a dish name".toList) ∧
    (trimChars dish ≠ [] →
      previewHandleSubmit dish meal =
        SubmitOutcome.request ⟨trimChars dish, meal⟩) ∧
    (trimChars dishA = [] ∨ trimChars dishB = [] →
      compareHandleSubmit dishA dishB =
        SubmitOutcome.failed "Please enter both dish names".toList) ∧
    (trimChars dishA ≠ [] → trimChars dishB ≠ [] →
      lowerChars (trimChars dishA) = lowerChars (trimChars dishB) →
      compareHandleSubmit dishA dishB =
        SubmitOutcome.failed "Please enter two different dishes to compare".toList) ∧
    (trimChars dishA ≠ [] → trimChars dishB ≠ [] →
      lowerChars (trimChars dishA) ≠ lowerChars (trimChars dishB) →
      compareHandleSubmit dishA dishB =
        SubmitOutcome.request ⟨trimChars dishA, trimChars dishB⟩) := by
  refine ⟨?_, ?_, ?_, ?_, ?_⟩
  · intro h; simp [previewHandleSubmit, h]
  · intro h; simp [previewHandleSubmit, h]
  · intro h; simp [compareHandleSubmit, h]
  · intro h1 h2 h3
    simp [compareHandleSubmit, h1, h2, h3]
  · intro h1 h2 h3
    simp [compareHandleSubmit, h1, h2, h3]

/-- Claim C3 witness: a whitespace-only preview submission is rejected. -/
theorem c3_witness :
    previewHandleSubmit "   ".toList "lunch".toList =
      SubmitOutcome.failed "Please enter a dish name".toList :=
  (c3_validation "   ".toList "lunch".toList "a".toList "b".toList).1 (by decide)

/-- Claim C8: any two comparison inputs that agree after trimming and
lowercasing are rejected with an error message and no request is sent —
either by the empty-name check or by the self-comparison check. -/
theorem c8_self_comparison_rejected (dishA dishB : List Char)
    (h : lowerChars (trimChars dishA) = lowerChars (trimChars dishB)) :
    ∃ msg, compareHandleSubmit dishA dishB = SubmitOutcome.failed msg := by
  unfold compareHandleSubmit
  by_cases he : trimChars dishA = [] ∨ trimChars dishB = []
  · exact ⟨"Please enter both dish names".toList, by simp [he]⟩
  · exact ⟨"Please enter two different dishes to compare".toList, by simp [he, h]⟩

/-- Claim C8 witness: "Rajma " vs " rajma" is rejected. -/
theorem c8_witness :
    ∃ msg, compareHandleSubmit "Rajma ".toList " rajma".toList =
      SubmitOutcome.failed msg :=
  c8_self_comparison_rejected "Rajma ".toList " rajma".toList (by decide)

/-- Claim C9: fallback substitution happens at most once per source.  A load
error while showing a source different from the fallback switches the display
to the fallback (with the error flag clear); a load error while already
showing the fallback leaves the source unchanged and sets the terminal error
flag, which no further error clears; after the first error the displayed
source never changes again under further errors. -/
theorem c9_fallback_once (fb : List Char) (s : ImgState) :
    (s.imgSrc ≠ fb →
      handleError fb s = ⟨fb, false, false⟩) ∧
    (s.imgSrc = fb →
      (handleError fb s).imgSrc = s.imgSrc ∧
      (handleError fb s).hasError = true ∧
      ∀ k : Nat, ((handleError fb)^[k] (handleError fb s)).hasError = true) ∧
    (∀ k : Nat, ((handleError fb)^[k] (handleError fb s)).imgSrc =
      (handleError fb s).imgSrc) := by
  have hiter : ∀ (k : Nat) (t : ImgState), t.imgSrc = fb →
      ((handleError fb)^[k] t).imgSrc = fb := by
    intro k
    induction k with
    | zero => intro t ht; simpa using ht
    | succ n ih =>
        intro t ht
        rw [Function.iterate_succ_apply]
        exact ih _ (handleError_imgSrc fb t)
  refine ⟨?_, ?_, ?_⟩
  · intro h; simp [handleError, h]
  · intro h
    refine ⟨(handleError_imgSrc fb s).trans h.symm, handleError_hasError_of_eq fb s h, ?_⟩
    intro k
    induction k with
    | zero => simpa using handleError_hasError_of_eq fb s h
    | succ n ih =>
        rw [Function.iterate_succ_apply']
        exact handleError_hasError_of_eq fb _ (hiter n _ (handleError_imgSrc fb s))
  · intro k
    rw [hiter k _ (handleError_imgSrc fb s), handleError_imgSrc fb s]

/-- Claim C9 witness: instantiating at a state showing a non-fallback source. -/
theorem c9_witness :
    handleError "/fb.png".toList ⟨"/img.png".toList, false, false⟩ =
      ⟨"/fb.png".toList, false, false⟩ :=
  (c9_fallback_once "/fb.png".toList ⟨"/img.png".toList, false, false⟩).1 (by decide)

/-- Claim C10: `getImageUrl` returns its input unchanged exactly when the
path starts with "http" (the base URL is never the empty string, since the
empty environment value is falsy and replaced by the default); and whenever
the base URL itself starts with "http", `getImageUrl` is idempotent. -/
theorem c10_getImageUrl_idempotent (env : Option (List Char)) (path : List Char) :
    (getImageUrl env path = path ↔ startsWith "http".toList path = true) ∧
    (startsWith "http".toList (apiBaseUrl env) = true →
      getImageUrl env (getImageUrl env path) = getImageUrl env path) := by
  constructor
  · constructor
    · intro he
      by_contra hp
      rw [getImageUrl, if_neg hp] at he
      have hlen := congrArg List.length he
      rw [List.length_append] at hlen
      have h0 : (apiBaseUrl env).length = 0 := by omega
      exact apiBaseUrl_ne_nil env (List.eq_nil_of_length_eq_zero h0)
    · intro hp
      rw [getImageUrl, if_pos hp]
  · intro hb
    by_cases hp : startsWith "http".toList path = true
    · have hin : getImageUrl env path = path := by rw [getImageUrl, if_pos hp]
      rw [hin]
      exact hin
    · have houter : startsWith "http".toList (apiBaseUrl env ++ path) = true :=
        startsWith_append _ _ _ hb
      have hin : getImageUrl env path = apiBaseUrl env ++ path := by
        rw [getImageUrl, if_neg hp]
      rw [hin, getImageUrl, if_pos houter]

/-- Claim C10 witness: with an unset environment the default base URL starts
with "http", so the helper is idempotent on a relative chart path. -/
theorem c10_witness :
    getImageUrl none (getImageUrl none "/data/charts/week.png".toList) =
      getImageUrl none "/data/charts/week.png".toList :=
  (c10_getImageUrl_idempotent none "/data/charts/week.png".toList).2 (by decide)

/-- Claim C4, counterexample: the claim says every pair with start ≤ end is
issued as a weekly request, but the page variant using `validateDates` also
rejects dates in the future: with the clock at 2026-10-11, the equal pair
2026-12-01 / 2026-12-01 is rejected and no request is issued. -/
theorem c4_counterexample :
    ¬ (∀ (s e : CalDate) (now : Int), getTime s ≤ getTime e →
        ∃ r, weeklyHandleSubmitValidated s e now = SubmitOutcome.request r) := by
  intro h
  rcases h ⟨2026, 12, 1⟩ ⟨2026, 12, 1⟩ (getTime ⟨2026, 10, 11⟩) (by decide) with ⟨r, hr⟩
  have hfail : weeklyHandleSubmitValidated ⟨2026, 12, 1⟩ ⟨2026, 12, 1⟩
      (getTime ⟨2026, 10, 11⟩) =
      SubmitOutcome.failed "End date cannot be in the future".toList := by decide
  rw [hfail] at hr
  exact SubmitOutcome.noConfusion hr

/-- Claim C4 (amended): start strictly after end is rejected with a
validation error and no request is issued, in both weekly page variants; a
pair with start ≤ end is issued by the `WeeklySnapshot.tsx` variant (an equal
pair is valid); the variant using `validateDates` additionally rejects dates
after the current instant, and issues the request whenever
start ≤ end ≤ now. -/
theorem c4_date_validation (s e : CalDate) (now : Int) :
    (getTime s > getTime e →
      weeklyHandleSubmit (some s) (some e) =
        SubmitOutcome.failed "Start date must be before end date".toList ∧
      weeklyHandleSubmitValidated s e now =
        SubmitOutcome.failed "Start date must be before or equal to end date".toList) ∧
    (getTime s ≤ getTime e →
      weeklyHandleSubmit (some s) (some e) = SubmitOutcome.request ⟨s, e⟩) ∧
    (getTime s ≤ getTime e → getTime e ≤ now →
      weeklyHandleSubmitValidated s e now = SubmitOutcome.request ⟨s, e⟩) := by
  refine ⟨?_, ?_, ?_⟩
  · intro h
    constructor
    · simp [weeklyHandleSubmit, h]
    · simp [weeklyHandleSubmitValidated, validateDates, h]
  · intro h
    simp [weeklyHandleSubmit, not_lt.mpr h]
  · intro h1 h2
    have hs : ¬ getTime s > getTime e := not_lt.mpr h1
    have he : ¬ getTime e > now := not_lt.mpr h2
    have hsn : ¬ getTime s > now := not_lt.mpr (h1.trans h2)
    simp [weeklyHandleSubmitValidated, validateDates, hs, he, hsn]

/-- Claim C4 witness: 2024-11-25 ≤ 2024-12-01 ≤ the 2026-10-11 clock, so the
validated variant issues the weekly request. -/
theorem c4_witness :
    weeklyHandleSubmitValidated ⟨2024, 11, 25⟩ ⟨2024, 12, 1⟩
      (getTime ⟨2026, 10, 11⟩) =
      SubmitOutcome.request ⟨⟨2024, 11, 25⟩, ⟨2024, 12, 1⟩⟩ :=
  (c4_date_validation ⟨2024, 11, 25⟩ ⟨2024, 12, 1⟩ (getTime ⟨2026, 10, 11⟩)).2.2
    (by decide) (by decide)

/-- Claim C5: for valid calendar dates with start at most end, the displayed
"Period: … days" figure equals (end − start in days) + 1: the millisecond
difference is an exact multiple of 86 400 000, so the `Math.ceil` is exact. -/
theorem c5_days_in_range (s e : CalDate) (_h : civilDays s ≤ civilDays e) :
    periodDaysDisplayed s e = (civilDays e : Int) - (civilDays s : Int) + 1 := by
  unfold periodDaysDisplayed getTime
  have hnum : (86400000 * ((civilDays e : Int) - (civilDays ⟨1970, 1, 1⟩ : Int)) -
      86400000 * ((civilDays s : Int) - (civilDays ⟨1970, 1, 1⟩ : Int))) =
      86400000 * ((civilDays e : Int) - (civilDays s : Int)) := by ring
  rw [hnum]
  have hval : ((86400000 * ((civilDays e : Int) - (civilDays s : Int)) : Int) : ℚ) /
      (1000 * 60 * 60 * 24) + 1 =
      (((civilDays e : Int) - (civilDays s : Int) + 1 : Int) : ℚ) := by
    push_cast
    field_simp
    ring
  rw [hval, Int.ceil_intCast]

/-- Claim C5 witness: the range 2024-11-25 through 2024-12-01 displays 7
days. -/
theorem c5_witness :
    periodDaysDisplayed ⟨2024, 11, 25⟩ ⟨2024, 12, 1⟩ = 7 :=
  (c5_days_in_range ⟨2024, 11, 25⟩ ⟨2024, 12, 1⟩ (by decide)).trans (by decide)

/-- Claim C2 (spec-modelled): `resolve` returns the highest-scoring
reference exactly when its similarity score is at least 0.70; when every
reference scores below 0.70 it returns `matched_reference = none` with
`confidence = 0`. -/
theorem c2_resolve_threshold (refs : List DishReference) (name : List Char) :
    ((∀ r ∈ refs, similarity name r.name < 7/10) →
      resolve refs name = ⟨none, 0⟩) ∧
    ((∃ r ∈ refs, 7/10 ≤ similarity name r.name) →
      ∃ r ∈ refs, resolve refs name = ⟨some r, similarity name r.name⟩ ∧
        ∀ x ∈ refs, similarity name x.name ≤ similarity name r.name) := by
  match refs with
  | [] =>
      refine ⟨fun _ => rfl, ?_⟩
      rintro ⟨r, hr, _⟩
      exact absurd hr (List.not_mem_nil r)
  | r :: rs =>
      obtain ⟨hmem, hscore, hmax⟩ := pickBest_spec name r rs
      constructor
      · intro hall
        have hlt : (pickBest name r rs).2 < 7/10 := by
          rw [hscore]
          exact hall _ hmem
        show (if (pickBest name r rs).2 ≥ 7/10 then
            (⟨some (pickBest name r rs).1, (pickBest name r rs).2⟩ : MatchResult)
          else ⟨none, 0⟩) = ⟨none, 0⟩
        rw [if_neg (not_le.mpr hlt)]
      · rintro ⟨x, hx, hxs⟩
        have hge : (7 : ℚ)/10 ≤ (pickBest name r rs).2 := hxs.trans (hmax x hx)
        refine ⟨(pickBest name r rs).1, hmem, ?_, ?_⟩
        · show (if (pickBest name r rs).2 ≥ 7/10 then
              (⟨some (pickBest name r rs).1, (pickBest name r rs).2⟩ : MatchResult)
            else ⟨none, 0⟩) =
            ⟨some (pickBest name r rs).1,
              similarity name (pickBest name r rs).1.name⟩
          rw [if_pos hge, hscore]
        · intro x2 hx2
          rw [← hscore]
          exact hmax x2 hx2

/-- Claim C2 witness: against the single reference "rajma", the input
"Rajma" scores 1 ≥ 0.70 and resolves to that reference. -/
theorem c2_witness :
    ∃ r ∈ [(⟨"rajma".toList, 300⟩ : DishReference)],
      resolve [⟨"rajma".toList, 300⟩] "Rajma".toList =
        ⟨some r, similarity "Rajma".toList r.name⟩ ∧
      ∀ x ∈ [(⟨"rajma".toList, 300⟩ : DishReference)],
        similarity "Rajma".toList x.name ≤ similarity "Rajma".toList r.name :=
  (c2_resolve_threshold [⟨"rajma".toList, 300⟩] "Rajma".toList).2
    ⟨⟨"rajma".toList, 300⟩, by decide, by
      show (7 : ℚ)/10 ≤ similarity "Rajma".toList "rajma".toList
      have h1 : normalize "Rajma".toList = "rajma".toList := by decide
      have h2 : normalize "rajma".toList = "rajma".toList := by decide
      have h3 : levenshtein "rajma".toList "rajma".toList = 0 := by simp [levenshtein]
      rw [similarity, h1, h2, h3]
      norm_num⟩

/-- Claim C6 (spec-modelled): every `MatchResult` produced by `resolve` has
a confidence in [0,1], and the confidence is 0 whenever no reference is
matched. -/
theorem c6_confidence_bounds (refs : List DishReference) (name : List Char) :
    0 ≤ (resolve refs name).confidence ∧
    (resolve refs name).confidence ≤ 1 ∧
    ((resolve refs name).matched_reference = none →
      (resolve refs name).confidence = 0) := by
  match refs with
  | [] =>
      refine ⟨le_refl 0, ?_, fun _ => rfl⟩
      show (0 : ℚ) ≤ 1
      norm_num
  | r :: rs =>
      obtain ⟨hmem, hscore, hmax⟩ := pickBest_spec name r rs
      by_cases hge : (pickBest name r rs).2 ≥ 7/10
      · have hres : resolve (r :: rs) name =
            ⟨some (pickBest name r rs).1, (pickBest name r rs).2⟩ := by
          show (if (pickBest name r rs).2 ≥ 7/10 then
              (⟨some (pickBest name r rs).1, (pickBest name r rs).2⟩ : MatchResult)
            else ⟨none, 0⟩) = _
          rw [if_pos hge]
        rw [hres]
        refine ⟨?_, ?_, ?_⟩
        · show 0 ≤ (pickBest name r rs).2
          rw [hscore]
          exact similarity_nonneg _ _
        · show (pickBest name r rs).2 ≤ 1
          rw [hscore]
          exact similarity_le_one _ _
        · intro hnone
          exact Option.noConfusion hnone
      · have hres : resolve (r :: rs) name = ⟨none, 0⟩ := by
          show (if (pickBest name r rs).2 ≥ 7/10 then
              (⟨some (pickBest name r rs).1, (pickBest name r rs).2⟩ : MatchResult)
            else ⟨none, 0⟩) = _
          rw [if_neg hge]
        rw [hres]
        refine ⟨le_refl 0, ?_, fun _ => rfl⟩
        show (0 : ℚ) ≤ 1
        norm_num

/-- Claim C6 witness: with no loaded references nothing matches and the
confidence is 0. -/
theorem c6_witness : (resolve [] "pizza".toList).confidence = 0 :=
  (c6_confidence_bounds [] "pizza".toList).2.2 rfl

/-- Claim C7 (spec-modelled): when `n > 0` callers concurrently invoke
`execute(key, generateFn)` — they reach the coordinator in an arbitrary
order `l`, each exactly once, before the in-flight generation completes —
the run succeeds, `generateFn` is invoked exactly once (`genCount = 1`), and
every caller completes with the identical outcome `g 0` of that single
invocation. -/
theorem c7_single_flight (n : Nat) (g : Nat → Nat) (l : List (Fin n))
    (hn : 0 < n) (hnd : l.Nodup) (hall : ∀ i : Fin n, i ∈ l) :
    ∃ s : SFState n,
      sfRun g (initState n) (l.map SFEvent.enter ++ [SFEvent.complete]) = some s ∧
      s.genCount = 1 ∧ ∀ i : Fin n, s.caller i = CallerState.done (g 0) := by
  obtain ⟨i, t, rfl⟩ : ∃ i t, l = i :: t := by
    match l, hall with
    | [], hall => exact absurd (hall ⟨0, hn⟩) (List.not_mem_nil _)
    | i :: t, _ => exact ⟨i, t, rfl⟩
  have hit : i ∉ t := (List.nodup_cons.mp hnd).1
  have hnt : t.Nodup := (List.nodup_cons.mp hnd).2
  have hstep1 : sfStep g (initState n) (SFEvent.enter i) =
      some ⟨Function.update (fun _ => CallerState.pending) i CallerState.active,
        true, 1⟩ := by
    simp [sfStep, initState]
  obtain ⟨s2, hrun2, h2in, h2gc, h2act, h2keep⟩ :=
    sfRun_enters g t
      ⟨Function.update (fun _ => CallerState.pending) i CallerState.active, true, 1⟩
      rfl hnt
      (by
        intro j hj
        have hji : j ≠ i := fun he => hit (he ▸ hj)
        simp [Function.update_apply, hji])
  have hstep3 : sfStep g s2 SFEvent.complete =
      some ⟨fun j => match s2.caller j with
              | CallerState.active => CallerState.done (g (s2.genCount - 1))
              | c => c,
            false, s2.genCount⟩ := by
    simp [sfStep, h2in]
  have hgc2 : s2.genCount = 1 := h2gc
  refine ⟨⟨fun j => match s2.caller j with
            | CallerState.active => CallerState.done (g (s2.genCount - 1))
            | c => c,
          false, s2.genCount⟩, ?_, hgc2, ?_⟩
  · rw [sfRun_append]
    have hfront : sfRun g (initState n) ((i :: t).map SFEvent.enter) = some s2 := by
      simp only [List.map_cons, sfRun, hstep1]
      exact hrun2
    rw [hfront]
    simp [sfRun, hstep3]
  · intro j
    have hact : s2.caller j = CallerState.active := by
      rcases List.mem_cons.mp (hall j) with hj | hj
      · rw [hj, h2keep i hit]
        simp
      · exact h2act j hj
    show (match s2.caller j with
      | CallerState.active => CallerState.done (g (s2.genCount - 1))
      | c => c) = CallerState.done (g 0)
    rw [hact, hgc2]

/-- Claim C7 witness: three concurrent callers entering in order 0,1,2 all
complete with the outcome of the single invocation. -/
theorem c7_witness :
    ∃ s : SFState 3,
      sfRun (fun j => j + 7) (initState 3)
        (([0, 1, 2] : List (Fin 3)).map SFEvent.enter ++ [SFEvent.complete]) =
        some s ∧
      s.genCount = 1 ∧ ∀ i : Fin 3, s.caller i = CallerState.done 7 :=
  c7_single_flight 3 (fun j => j + 7) [0, 1, 2] (by decide) (by decide) (by decide)

end TamatarBhai
